import Mathlib

/-!
# Verification of the orthographic-profile core of `prftool.py`

A shallow embedding of the segmentation engine, rule trimmer, consistency
checker and profile-cleaning helpers of `prftool.py`, together with theorems
settling the specification's claims about them.

Conventions of the embedding:
* Python strings are modelled as `List Char` where code-point indexing and
  slicing matter (word forms, graphemes), and as `String` where they are only
  compared, split and joined (transcriptions, emitted tokens).
* The external collaborators (`unicodedata.normalize`, the CLTS/BIPA
  validator) are passed in as function parameters; the core only moves their
  results around.
* The in-place mutation of the Python `segment_map` dict is modelled by
  explicit state passing: the map is an association list with its key in the
  first component, threaded through the segmentation loop.
* Fallible code returns `Option`: `none` models an uncaught Python exception.
-/

set_option autoImplicit false

namespace Prftool

/-- The command-line flags of `prftool.py` consulted by the embedded core.
`debug_wl` is the truthiness of the `--debug_wl` path argument. -/
structure Args where
  nonfc : Bool
  nobound : Bool
  debug_wl : Bool
deriving DecidableEq

/-- One row of a profile as held in `segment_map`: the value dict of
`apply_profile`'s `new_profile` entries.  The row's grapheme column is the
key under which the entry is stored, the remaining fields are the columns the
segmenter reads and writes (`IPA`, `FREQUENCY`, `EXAMPLES`, `LANGUAGES`). -/
structure Entry where
  ipa : String
  frequency : Nat
  examples : List (List Char)
  languages : List String
deriving DecidableEq

/-- `segment_map`: a Python dict from grapheme to row, modelled as an
association list (insertion order preserved, keys unique by construction). -/
abbrev SegMap := List (List Char × Entry)

/-- Update the value stored under key `k` (the in-place
`segment_map[needle][...] = ...` mutations of the source). -/
def updateEntry (m : SegMap) (k : List Char) (f : Entry → Entry) : SegMap :=
  m.map fun p => if p.1 == k then (p.1, f p.2) else p

/-- The inner `for length in range(len(form[i:]), 0, -1)` loop of
`apply_profile_to_form`: try the needle `form[i : i + length]` (here
`rest.take length` for `rest = form[i:]`) for `length = n, n-1, ..., 1` and
return the first length whose needle is a key of `segment_map`, together with
the entry found. -/
def findMatchFrom (m : SegMap) (rest : List Char) : Nat → Option (Nat × Entry)
  | 0 => none
  | n + 1 =>
    match m.lookup (rest.take (n + 1)) with
    | some e => some (n + 1, e)
    | none => findMatchFrom m rest n

/-- The whole length loop, started at `len(form[i:])`. -/
def findMatch (m : SegMap) (rest : List Char) : Option (Nat × Entry) :=
  findMatchFrom m rest rest.length

/-- The `while True` loop of `apply_profile_to_form`, operating on the
remaining suffix `rest = form[i:]` of the prepared form.  `formFull` is the
whole prepared form (appended to `EXAMPLES` on a match, exactly as the source
appends `form`).  `fuel` bounds the number of loop iterations; every
iteration advances the cursor by at least one character, so `rest.length`
fuel is enough, and every use of `segLoop` passes the length of the list it
starts from. -/
def segLoop (args : Args) (formFull : List Char) (language : String) :
    Nat → List Char → SegMap → List String × SegMap
  | _, [], m => ([], m)
  | 0, _ :: _, m => ([], m)
  | fuel + 1, c :: cs, m =>
    match findMatch m (c :: cs) with
    | some (l, e) =>
      let token : String :=
        if args.debug_wl then
          "\x7b" ++ String.mk ((c :: cs).take l) ++ "\x7d/\x7b" ++ e.ipa ++ "\x7d"
        else e.ipa
      let m' := updateEntry m ((c :: cs).take l) fun en =>
        { en with
            frequency := en.frequency + 1
            examples := en.examples ++ [formFull]
            languages := en.languages ++ [language] }
      let res := segLoop args formFull language fuel ((c :: cs).drop l) m'
      (token :: res.1, res.2)
    | none =>
      let toks : List String :=
        if c = ' ' then
          (if args.debug_wl then ["\x7b \x7d/\x7b#\x7d"] else ["#"])
        else if c = '^' ∨ c = '$' then
          (if args.debug_wl then ["\x7b" ++ String.singleton c ++ "\x7d/\x7b\x7d"] else [])
        else ["<<" ++ String.singleton c ++ ">>"]
      let res := segLoop args formFull language fuel cs m
      (toks ++ res.1, res.2)

/-- The form preparation at the top of `apply_profile_to_form`: both the NFC
normalization and the `"^%s$" % form` boundary wrap are guarded by
`if not args.nonfc` in the source (the wrap is *not* guarded by
`args.nobound`).  `nfc` is the external `unicodedata.normalize("NFC", ·)`. -/
def prepare_form (nfc : List Char → List Char) (args : Args) (form : List Char) : List Char :=
  let form := if !args.nonfc then nfc form else form
  if !args.nonfc then '^' :: (form ++ ['$']) else form

/-- `apply_profile_to_form(form, language, segment_map, args)`: prepare the
form, run the greedy longest-match loop, and drop the tokens equal to the
string `"NULL"` from the result.  Returns the emitted token list together
with the updated `segment_map`.  `none` models the source's `IndexError` when
the prepared form is empty (the loop body reads `form[i]` before the
end-of-form check, which only an empty prepared form can reach). -/
def apply_profile_to_form (nfc : List Char → List Char) (form : List Char)
    (language : String) (segment_map : SegMap) (args : Args) :
    Option (List String × SegMap) :=
  let f := prepare_form nfc args form
  if f = [] then none
  else
    let res := segLoop args f language f.length f segment_map
    some (res.1.filter (fun s => s != "NULL"), res.2)

/-! ## Rule Trimmer: candidate list construction (`trim_profile`, lines 160-189) -/

/-- `grapheme[0] == "^"`.  The source would raise `IndexError` on an empty
grapheme; an empty grapheme is treated as not starting with `^` here. -/
def startsCaret (g : List Char) : Bool := g.head? == some '^'

/-- `grapheme[-1] == "$"` (empty graphemes, on which the source would raise
`IndexError`, count as not ending in `$`). -/
def endsDollar (g : List Char) : Bool := g.getLast? == some '$'

/-- Stable insertion of `g` into a list sorted by decreasing length: `g` goes
in front of the first element that is not strictly longer. -/
def insertLenDesc (g : List Char) : List (List Char) → List (List Char)
  | [] => [g]
  | h :: t => if g.length < h.length then h :: insertLenDesc g t else g :: h :: t

/-- `sorted(•, key=len, reverse=True)`: a stable sort by decreasing length. -/
def sort_len_desc : List (List Char) → List (List Char)
  | [] => []
  | g :: t => insertLenDesc g (sort_len_desc t)

/-- The `check_graphemes` candidate list of `trim_profile`, built from the
keys of `segment_map` in insertion order.  Faithfully to the source,
`bound_graphemes` receives the `^...$` graphemes *twice* (the same list
comprehension is appended twice) followed by the `...$`-only graphemes, and
the final `sorted(...)` comprehension iterates over `bound_graphemes` while
filtering `grapheme not in bound_graphemes`, so it is always empty. -/
def trim_candidates (graphemes : List (List Char)) : List (List Char) :=
  let bound_graphemes :=
    (graphemes.filter fun g => startsCaret g && endsDollar g)
    ++ (graphemes.filter fun g => startsCaret g && endsDollar g)
    ++ (graphemes.filter fun g => !startsCaret g && endsDollar g)
  bound_graphemes ++ sort_len_desc
    (bound_graphemes.filter fun g => decide (1 < g.length) && !(bound_graphemes.contains g))

/-! ## Transcription-segment helpers shared by the checker and derivations -/

/-- Helper for `splitChar`: accumulate the current piece (reversed). -/
def splitCharAux (sep : Char) : List Char → List Char → List (List Char)
  | [], acc => [acc.reverse]
  | c :: cs, acc =>
    if c = sep then acc.reverse :: splitCharAux sep cs []
    else splitCharAux sep cs (c :: acc)

/-- Python's `str.split(sep)` for a one-character separator: split at every
occurrence of `sep`, keeping empty pieces. -/
def splitChar (sep : Char) (s : String) : List String :=
  (splitCharAux sep s.toList []).map String.mk

/-- `str.split()` for transcription values whose whitespace is plain spaces:
split on spaces and drop empty pieces. -/
def splitWs (s : String) : List String :=
  (splitChar ' ' s).filter (fun t => t != "")

/-- `"/" in token` (the separator is a single character, so substring
containment is character containment). -/
def hasSlash (s : String) : Bool := s.toList.contains '/'

/-- `token if "/" not in token else token.split("/")[1]`: the tolerant
slash handling of `check_consistency`, `ipa2types` and `ipa2sca`, which keeps
only the component after the first `/` (up to the next one, if any). -/
def stripSlash (s : String) : String :=
  if hasSlash s then (splitChar '/' s).getD 1 "" else s

/-- `ipa2types(ipa_text, clts)`: map every segment (after slash stripping) to
the name of its BIPA sound type, keeping `NULL` as `NULL`.  `typeName` is the
external `type(clts.bipa[token]).__name__`. -/
def ipa2types (typeName : String → String) (ipa_text : String) : String :=
  let ipas := (splitWs ipa_text).map stripSlash
  let types := ipas.map fun tok => if tok != "NULL" then typeName tok else "NULL"
  String.intercalate " " types

/-- `ipa2sca(ipa_text, clts)`: same shape as `ipa2types` with the external
`clts.bipa.translate(token, sca)` as `translate`. -/
def ipa2sca (translate : String → String) (ipa_text : String) : String :=
  let ipas := (splitWs ipa_text).map stripSlash
  let types := ipas.map fun tok => if tok != "NULL" then translate tok else "NULL"
  String.intercalate " " types

/-! ## Consistency Checker (`check_consistency`, lines 93-147) -/

/-- A structured log event emitted by `check_consistency`:
`duplicate` is the `logger.warning` for redundant duplicate entries,
`conflict` the `logger.error` for inconsistent mappings, and
`invalidSound` the `logger.error` for a mapping value containing at least one
unknown BIPA sound. -/
inductive Finding where
  | duplicate (grapheme : List Char)
  | conflict (grapheme : List Char) (values : List String)
  | invalidSound (grapheme : List Char) (value : String)
deriving DecidableEq

/-- `mapping[g]` of `check_consistency`: the IPA values of all profile rows
whose grapheme is `g`, in row order (the `defaultdict(list)` appends). -/
def graphemeValues (profile : List (List Char × String)) (g : List Char) : List String :=
  (profile.filter fun e => e.1 == g).map Prod.snd

/-- The iteration order `for grapheme in mapping`: dict keys in first-insertion
order, without duplicates. -/
def firstKeys : List (List Char × String) → List (List Char)
  | [] => []
  | e :: rest => e.1 :: (firstKeys rest).filter (fun k => k != e.1)

/-- The BIPA segments of one mapping value: split on whitespace, keep the
part after the first slash, and drop `NULL` and empty segments
(lines 125-132 of the source). -/
def bipaSegments (value : String) : List String :=
  ((splitWs value).map stripSlash).filter fun s => s != "NULL" && s != ""

/-- The findings `check_consistency` logs for one grapheme `g`: the
duplicate/conflict check on `mapping[g]`, followed by one invalid-sound
finding per value that contains at least one unknown BIPA segment.
`isUnknown` is the external
`isinstance(clts.bipa[segment], pyclts.models.UnknownSound)`. -/
def consistencyFindings (isUnknown : String → Bool)
    (profile : List (List Char × String)) (g : List Char) : List Finding :=
  let vals := graphemeValues profile g
  (if 2 ≤ vals.length then
    (if vals.dedup.length = 1 then [Finding.duplicate g]
     else [Finding.conflict g vals])
   else [])
  ++ vals.filterMap fun v =>
      if (bipaSegments v).any isUnknown then some (Finding.invalidSound g v) else none

/-- `check_consistency(profile, clts, args)`: the list of log events, in
emission order.  The function never raises: it always returns its findings. -/
def check_consistency (isUnknown : String → Bool)
    (profile : List (List Char × String)) : List Finding :=
  (firstKeys profile).flatMap (consistencyFindings isUnknown profile)

/-! ## Profile cleaning (`clean_profile` / `clean_segment`, lines 227-257) -/

/-- `clean_segment(segment, clts)`: replace the (right) grapheme with the
CLTS/BIPA default.  The source unpacks `segment.split("/")` into exactly two
variables, so a segment containing two or more slashes raises `ValueError`,
modelled as `none`.  `bipa` is the external `str(clts.bipa[x])`. -/
def clean_segment (bipa : String → String) (segment : String) : Option String :=
  if hasSlash segment then
    match splitChar '/' segment with
    | [l, r] => some (l ++ "/" ++ bipa r)
    | _ => none
  else some (bipa segment)

/-- The IPA-column update of `clean_profile` for one row: split the
(whitespace-collapsed) IPA value into segments, clean each segment, and
rejoin with single spaces; `none` when any `clean_segment` raises. -/
def clean_ipa (bipa : String → String) (ipa : String) : Option String :=
  ((splitWs ipa).mapM (clean_segment bipa)).map (String.intercalate " ")

/-! ## Concrete rule tables and flag settings used in the claims -/

/-- Default flags: NFC normalization and boundary wrapping on, no debug. -/
def argsDefault : Args := { nonfc := false, nobound := false, debug_wl := false }

/-- `--nonfc`: the prepared form is the raw form (no NFC, and — since the
wrap is guarded by the same flag — no boundary wrap either). -/
def argsNonfc : Args := { nonfc := true, nobound := false, debug_wl := false }

/-- A fresh entry with transcription `ipa` and cleared counters. -/
def mkEntry (ipa : String) : Entry :=
  { ipa := ipa, frequency := 0, examples := [], languages := [] }

/-- Table with graphemes `ab`, `a` and `b`: the longest-match scenario. -/
def tblAB : SegMap :=
  [("ab".toList, mkEntry "A"), ("a".toList, mkEntry "A2"), ("b".toList, mkEntry "B")]

/-- Table with the single grapheme `a`. -/
def tblA : SegMap := [("a".toList, mkEntry "A")]

/-- Table with the single grapheme `x` mapped to the multi-segment
transcription `a NULL b`. -/
def tblX : SegMap := [("x".toList, mkEntry "a NULL b")]

/-- Table with `n → NULL` and `x → a NULL b`. -/
def tblNX : SegMap := [("n".toList, mkEntry "NULL"), ("x".toList, mkEntry "a NULL b")]

/-- The state of `tblNX` after segmenting the form `nx` (both rules fired
once, with the form recorded as example and `L` as language). -/
def tblNX_after : SegMap :=
  [("n".toList, { ipa := "NULL", frequency := 1, examples := ["nx".toList], languages := ["L"] }),
   ("x".toList, { ipa := "a NULL b", frequency := 1, examples := ["nx".toList], languages := ["L"] })]

/-- Profile rows `x → a`, `x → a`, `x → b` (a pre-deduplication profile). -/
def profXAAB : List (List Char × String) :=
  [("x".toList, "a"), ("x".toList, "a"), ("x".toList, "b")]

/-- The state of `tblA` after segmenting the form `a`. -/
def tblA_after : SegMap :=
  [("a".toList, { ipa := "A", frequency := 1, examples := ["a".toList], languages := ["L"] })]

/-- Is the finding a duplicate-entry finding for grapheme `g`? -/
def isDuplicateFor (g : List Char) : Finding → Bool
  | Finding.duplicate g' => g' == g
  | _ => false

/-- Is the finding a conflicting-mapping finding for grapheme `g`? -/
def isConflictFor (g : List Char) : Finding → Bool
  | Finding.conflict g' _ => g' == g
  | _ => false

/-! ## Properties of the length loop (`findMatchFrom` / `findMatch`) -/

/-- If the length loop started at `n` returns `(l, e)`, then the needle of
length `l` is a key with entry `e`, `1 ≤ l ≤ n`, and every longer needle up
to length `n` is not a key (lengths are tried longest-first). -/
theorem findMatchFrom_some_spec (m : SegMap) (rest : List Char) :
    ∀ (n l : Nat) (e : Entry), findMatchFrom m rest n = some (l, e) →
      m.lookup (rest.take l) = some e ∧ 1 ≤ l ∧ l ≤ n ∧
        ∀ l', l < l' → l' ≤ n → m.lookup (rest.take l') = none := by
  intro n
  induction n with
  | zero => intro l e h; simp [findMatchFrom] at h
  | succ k ih =>
    intro l e h
    simp only [findMatchFrom] at h
    cases hl : m.lookup (rest.take (k + 1)) with
    | some e' =>
      rw [hl] at h
      simp only [Option.some.injEq, Prod.mk.injEq] at h
      obtain ⟨rfl, rfl⟩ := h
      refine ⟨hl, by omega, Nat.le_refl _, ?_⟩
      intro l' h1 h2; omega
    | none =>
      rw [hl] at h
      obtain ⟨h1, h2, h3, h4⟩ := ih l e h
      refine ⟨h1, h2, by omega, ?_⟩
      intro l' hlt hle
      by_cases hk : l' ≤ k
      · exact h4 l' hlt hk
      · have : l' = k + 1 := by omega
        subst this; exact hl

/-- If the length loop started at `n` finds nothing, no needle of length
`1..n` is a key. -/
theorem findMatchFrom_none_spec (m : SegMap) (rest : List Char) :
    ∀ n, findMatchFrom m rest n = none →
      ∀ l', 1 ≤ l' → l' ≤ n → m.lookup (rest.take l') = none := by
  intro n
  induction n with
  | zero => intro _ l' h1 h2; omega
  | succ k ih =>
    intro h l' h1 h2
    simp only [findMatchFrom] at h
    cases hl : m.lookup (rest.take (k + 1)) with
    | some e' => rw [hl] at h; simp at h
    | none =>
      rw [hl] at h
      by_cases hk : l' ≤ k
      · exact ih h l' h1 hk
      · have : l' = k + 1 := by omega
        subst this; exact hl

/-- Claim C1 — greedy longest match: at each cursor position the segmenter
tries substring lengths from the whole remaining length down to 1 and takes
the first (longest) needle that is a key of the table: a returned match is a
key and every strictly longer needle is not a key; if the loop returns
nothing, no needle of any positive length is a key.  In particular, for a
table containing both `ab` and `a` (and `b`), segmenting the form `^ab$`
matches `ab` as one token — the output is `["A"]`, never `A2` then `B`. -/
theorem c1_longest_match :
    (∀ (m : SegMap) (rest : List Char) (l : Nat) (e : Entry),
        findMatch m rest = some (l, e) →
          m.lookup (rest.take l) = some e ∧ 1 ≤ l ∧ l ≤ rest.length ∧
            ∀ l', l < l' → l' ≤ rest.length → m.lookup (rest.take l') = none)
  ∧ (∀ (m : SegMap) (rest : List Char),
        findMatch m rest = none →
          ∀ l', 1 ≤ l' → l' ≤ rest.length → m.lookup (rest.take l') = none)
  ∧ (apply_profile_to_form id ("ab".toList) "L" tblAB argsDefault).map Prod.fst = some ["A"]
  ∧ (apply_profile_to_form id ("^ab$".toList) "L" tblAB argsNonfc).map Prod.fst = some ["A"] := by
  refine ⟨?_, ?_, by decide, by decide⟩
  · intro m rest l e h
    exact findMatchFrom_some_spec m rest rest.length l e h
  · intro m rest h
    exact findMatchFrom_none_spec m rest rest.length h

/-- Witness for C1 at a concrete input: in `tblAB` the needle `ab` of the
match returned for the suffix `ab` is a key with entry `A`. -/
theorem c1_longest_match_witness :
    tblAB.lookup (("ab".toList).take 2) = some (mkEntry "A") :=
  (c1_longest_match.1 tblAB ("ab".toList) 2 (mkEntry "A") (by decide)).1

/-- Claim C2 — evaluation of the code at the failing input: the trim
candidate list of the one-rule profile `[^a$ → a]` is nonempty (the rule even
appears twice), so the first loop iteration of `trim_profile` reaches its
call `apply_profile_to_form(grapheme, segment_map, args)`, which passes 3
arguments to the 4-parameter function
`apply_profile_to_form(form, language, segment_map, args)` and raises
`TypeError` in the source. -/
theorem c2_trim_call_reached :
    trim_candidates ["^a$".toList] = ["^a$".toList, "^a$".toList] := by decide

/-- Claim C3 — evaluation of the code at the failing input: for a table with
graphemes `^a$`, `b$`, `ab`, `c`, the candidate list is the `^...$` group
twice followed by the `...$` group, and the unbounded multi-character
grapheme `ab` never appears: the category-(c) comprehension iterates over
`bound_graphemes` while filtering `grapheme not in bound_graphemes`, so it is
always empty. -/
theorem c3_candidate_list :
    trim_candidates ["^a$".toList, "b$".toList, "ab".toList, "c".toList]
        = ["^a$".toList, "^a$".toList, "b$".toList]
  ∧ "ab".toList ∉ trim_candidates ["^a$".toList, "b$".toList, "ab".toList, "c".toList] :=
  ⟨by decide, by decide⟩

/-- Claim C5 — evaluation of the code at the failing input: in
`apply_profile_to_form` both the NFC normalization and the `^...$` wrap are
guarded by `if not args.nonfc`; `args.nobound` is never consulted.  So with
`--nobound` (and NFC left on) the form `a` is still wrapped to `^a$`, while
`--nonfc` alone (boundary insertion not disabled) suppresses the wrap. -/
theorem c5_wrap_flags :
    (∀ (nfc : List Char → List Char) (form : List Char) (b : Bool),
        prepare_form nfc { nonfc := false, nobound := b, debug_wl := false } form
            = '^' :: (nfc form ++ ['$'])
      ∧ prepare_form nfc { nonfc := true, nobound := b, debug_wl := false } form = form)
  ∧ prepare_form id { nonfc := false, nobound := true, debug_wl := false } ("a".toList)
        = "^a$".toList
  ∧ prepare_form id { nonfc := true, nobound := false, debug_wl := false } ("a".toList)
        = "a".toList :=
  ⟨fun _ _ _ => ⟨rfl, rfl⟩, by decide, by decide⟩

/-- Claim C4 — counterexample: the rule `x → a NULL b` emits its whole
transcription as a single output token; the final `seg != "NULL"` filter does
not remove the `NULL` segment inside it, so the non-debug output token
sequence for the form `x` still contains the segment `NULL`. -/
theorem c4_counterexample :
    (apply_profile_to_form id ("x".toList) "L" tblX argsNonfc).map Prod.fst
        = some ["a NULL b"]
  ∧ "NULL" ∈ splitWs "a NULL b" :=
  ⟨by decide, by decide⟩

/-- Claim C4 as amended: each matched rule emits its entire transcription
string as one token and the segmenter afterwards drops exactly the tokens
equal to the string `NULL`; hence no output token is ever the string `NULL`
(rules whose whole transcription is `NULL` are absorbed silently), but a
`NULL` segment inside a multi-segment transcription such as `a NULL b` is
kept: segmenting `nx` against `n → NULL, x → a NULL b` yields exactly
`["a NULL b"]`. -/
theorem c4_amended :
    (∀ (nfc : List Char → List Char) (form : List Char) (lang : String)
        (m : SegMap) (args : Args) (res : List String × SegMap),
        apply_profile_to_form nfc form lang m args = some res → "NULL" ∉ res.1)
  ∧ (apply_profile_to_form id ("nx".toList) "L" tblNX argsNonfc).map Prod.fst
        = some ["a NULL b"] := by
  refine ⟨?_, by decide⟩
  intro nfc form lang m args res h hmem
  rw [apply_profile_to_form] at h
  by_cases hz : prepare_form nfc args form = []
  · simp [hz] at h
  · simp only [hz, if_neg, if_false] at h
    rw [← Option.some.injEq] at h
    simp only [Option.some.injEq] at h
    have h1 : res.1 = (segLoop args (prepare_form nfc args form) lang
        (prepare_form nfc args form).length (prepare_form nfc args form) m).1.filter
          (fun s => s != "NULL") := by
      rw [← h]
    rw [h1] at hmem
    have := List.of_mem_filter hmem
    simp at this

/-- Witness for C4 (amended) at a concrete input: the output token list for
the form `nx` contains no token equal to `NULL`. -/
theorem c4_amended_witness : "NULL" ∉ (["a NULL b"] : List String) :=
  c4_amended.1 id ("nx".toList) "L" tblNX argsNonfc (["a NULL b"], tblNX_after) (by decide)

/-- Claim C10 — totality gap around slashes: a transcription segment with
two or more `/` characters makes `clean_segment` (and hence the cleaning of
any profile row containing it) raise — the two-variable unpacking of
`segment.split("/")` fails, modelled as `none` — for every external BIPA
resolver; while `check_consistency`, `ipa2types` and `ipa2sca` tolerate the
same segment by keeping only `split("/")[1]`, the component after the first
slash (`b` for `a/b/c`), and complete normally. -/
theorem c10_slash_totality :
    (∀ bipa : String → String, clean_segment bipa "a/b/c" = none)
  ∧ (∀ bipa : String → String, clean_ipa bipa "x a/b/c" = none)
  ∧ stripSlash "a/b/c" = "b"
  ∧ (∀ tf : String → String, ipa2types tf "a/b/c" = tf "b")
  ∧ (∀ tr : String → String, ipa2sca tr "a/b/c" = tr "b")
  ∧ check_consistency (fun _ => false) [("x".toList, "a/b/c")] = [] :=
  ⟨fun _ => rfl, fun _ => rfl, by decide, fun _ => rfl, fun _ => rfl, by decide⟩

/-- Witness for C10 at a concrete resolver: with the identity resolver the
cleaning of `a/b/c` still fails while the type derivation returns `b`. -/
theorem c10_slash_totality_witness :
    clean_segment id "a/b/c" = none ∧ ipa2types id "a/b/c" = "b" :=
  ⟨c10_slash_totality.1 id, c10_slash_totality.2.2.2.1 id⟩

/-- Claim C6 — unmatched-character safety: when no needle at the cursor is a
key, the (non-debug) segmenter emits `#` for a space, nothing for the
sentinels `^` and `$`, and exactly one error token `<<c>>` wrapping any other
character, advances the cursor by one character, and continues with the rest
of the form; the loop never fails.  Concretely, segmenting `azb` against the
one-rule table `a → A` yields `A`, one error token per unmatched character,
and runs to the end of the form. -/
theorem c6_unmatched_safety :
    (∀ (args : Args) (formFull : List Char) (lang : String) (m : SegMap)
        (c : Char) (cs : List Char) (fuel : Nat),
        args.debug_wl = false → findMatch m (c :: cs) = none →
        segLoop args formFull lang (fuel + 1) (c :: cs) m =
          ((if c = ' ' then ["#"]
            else if c = '^' ∨ c = '$' then []
            else ["<<" ++ String.singleton c ++ ">>"])
              ++ (segLoop args formFull lang fuel cs m).1,
           (segLoop args formFull lang fuel cs m).2))
  ∧ (apply_profile_to_form id ("azb".toList) "L" tblA argsNonfc).map Prod.fst
      = some ["A", "<<z>>", "<<b>>"] := by
  refine ⟨?_, by decide⟩
  intro args formFull lang m c cs fuel hdbg hnm
  simp only [segLoop, hnm, hdbg]
  by_cases hsp : c = ' '
  · simp [hsp]
  · by_cases hb : c = '^' ∨ c = '$'
    · simp [hsp, hb]
    · simp [hsp, hb]

/-- Witness for C6 at a concrete input: one unmatched step on the form `z`
with the empty table. -/
theorem c6_unmatched_safety_witness :
    segLoop argsNonfc ['z'] "L" 1 ['z'] [] =
      ((if 'z' = ' ' then ["#"]
        else if 'z' = '^' ∨ 'z' = '$' then []
        else ["<<" ++ String.singleton 'z' ++ ">>"])
          ++ (segLoop argsNonfc ['z'] "L" 0 [] []).1,
       (segLoop argsNonfc ['z'] "L" 0 [] []).2) :=
  c6_unmatched_safety.1 argsNonfc ['z'] "L" [] 'z' [] 0 rfl (by decide)

/-! ## Key-set preservation (Claim C9) -/

/-- `updateEntry` only rewrites the value of matching keys: the key list is
untouched. -/
theorem updateEntry_keys (m : SegMap) (k : List Char) (f : Entry → Entry) :
    (updateEntry m k f).map Prod.fst = m.map Prod.fst := by
  unfold updateEntry
  rw [List.map_map]
  apply List.map_congr_left
  intro p _
  by_cases h : p.1 = k <;> simp [h]

/-- The segmentation loop threads the table through `updateEntry` only, so
its key list is invariant. -/
theorem segLoop_keys (args : Args) (formFull : List Char) (lang : String) :
    ∀ (fuel : Nat) (rest : List Char) (m : SegMap),
      ((segLoop args formFull lang fuel rest m).2).map Prod.fst = m.map Prod.fst := by
  intro fuel
  induction fuel with
  | zero =>
    intro rest m
    cases rest <;> simp [segLoop]
  | succ k ih =>
    intro rest m
    cases rest with
    | nil => simp [segLoop]
    | cons c cs =>
      simp only [segLoop]
      cases h : findMatch m (c :: cs) with
      | some le =>
        obtain ⟨l, e⟩ := le
        simp only [h]
        rw [ih, updateEntry_keys]
      | none =>
        simp only [h]
        rw [ih]

/-- Claim C9 — key-set invariant: segmenting any form against any table
mutates only the values of existing rules; the table's key list (hence key
set) is identical before and after the pass. -/
theorem c9_key_set (nfc : List Char → List Char) (form : List Char) (lang : String)
    (m : SegMap) (args : Args) (res : List String × SegMap)
    (h : apply_profile_to_form nfc form lang m args = some res) :
    res.2.map Prod.fst = m.map Prod.fst := by
  rw [apply_profile_to_form] at h
  by_cases hz : prepare_form nfc args form = []
  · simp [hz] at h
  · simp only [hz, if_neg, if_false, Option.some.injEq] at h
    have h2 : res.2 = (segLoop args (prepare_form nfc args form) lang
        (prepare_form nfc args form).length (prepare_form nfc args form) m).2 := by
      rw [← h]
    rw [h2]
    exact segLoop_keys args _ lang _ _ m

/-- Witness for C9 at a concrete input: segmenting `a` against `tblA` yields
the updated table `tblA_after` with the same key list. -/
theorem c9_key_set_witness : tblA_after.map Prod.fst = tblA.map Prod.fst :=
  c9_key_set id ("a".toList) "L" tblA argsNonfc (["A"], tblA_after) (by decide)

/-! ## Counting findings (Claim C7) -/

/-- Invalid-sound findings are neither duplicate nor conflict findings, so
they never contribute to a duplicate/conflict count. -/
theorem countP_invalid_zero (isUnknown : String → Bool) (vals : List String)
    (g' : List Char) (P : Finding → Bool)
    (hP : ∀ (g'' : List Char) (v : String), P (Finding.invalidSound g'' v) = false) :
    (vals.filterMap fun v =>
        if (bipaSegments v).any isUnknown then some (Finding.invalidSound g' v)
        else none).countP P = 0 := by
  rw [List.countP_eq_zero]
  intro f hf
  rw [List.mem_filterMap] at hf
  obtain ⟨v, _, hv⟩ := hf
  by_cases hc : ((bipaSegments v).any isUnknown) = true
  · rw [if_pos hc, Option.some.injEq] at hv
    rw [← hv]
    simp [hP]
  · rw [if_neg hc] at hv
    exact absurd hv (by simp)

/-- Per-grapheme duplicate count of one checker block: `1` exactly when the
block is the one for `g` and `mapping[g]` has at least two entries that are
all equal. -/
theorem countP_dup_block (isUnknown : String → Bool)
    (profile : List (List Char × String)) (g g' : List Char) :
    (consistencyFindings isUnknown profile g').countP (isDuplicateFor g)
      = if g' = g ∧ 2 ≤ (graphemeValues profile g).length
            ∧ (graphemeValues profile g).dedup.length = 1 then 1 else 0 := by
  rw [consistencyFindings, List.countP_append,
    countP_invalid_zero isUnknown _ _ _ (fun _ _ => rfl), Nat.add_zero]
  by_cases hg : g' = g
  · subst hg
    by_cases h1 : 2 ≤ (graphemeValues profile g').length
    · by_cases h2 : (graphemeValues profile g').dedup.length = 1
      · simp [h1, h2, isDuplicateFor]
      · simp [h1, h2, isDuplicateFor]
    · simp [h1]
  · by_cases h1 : 2 ≤ (graphemeValues profile g').length
    · by_cases h2 : (graphemeValues profile g').dedup.length = 1
      · simp [h1, h2, isDuplicateFor, hg]
      · simp [h1, h2, isDuplicateFor, hg]
    · simp [h1, hg]

/-- Per-grapheme conflict count of one checker block: `1` exactly when the
block is the one for `g` and `mapping[g]` has at least two distinct values
(the source's `len(mapping[g]) >= 2 and len(set(mapping[g])) != 1`). -/
theorem countP_conflict_block (isUnknown : String → Bool)
    (profile : List (List Char × String)) (g g' : List Char) :
    (consistencyFindings isUnknown profile g').countP (isConflictFor g)
      = if g' = g ∧ 2 ≤ (graphemeValues profile g).dedup.length then 1 else 0 := by
  rw [consistencyFindings, List.countP_append,
    countP_invalid_zero isUnknown _ _ _ (fun _ _ => rfl), Nat.add_zero]
  have hdn : (graphemeValues profile g').dedup.length
      ≤ (graphemeValues profile g').length :=
    (List.dedup_sublist _).length_le
  have h0 : (graphemeValues profile g').dedup.length = 0
      ↔ (graphemeValues profile g').length = 0 := by
    rw [List.length_eq_zero, List.length_eq_zero, List.dedup_eq_nil]
  by_cases hg : g' = g
  · subst hg
    by_cases h1 : 2 ≤ (graphemeValues profile g').length
    · by_cases h2 : (graphemeValues profile g').dedup.length = 1
      · have hr : ¬ 2 ≤ (graphemeValues profile g').dedup.length := by omega
        simp [h1, h2, isConflictFor, hr]
      · have hr : 2 ≤ (graphemeValues profile g').dedup.length := by omega
        simp [h1, h2, isConflictFor, hr]
    · have hr : ¬ 2 ≤ (graphemeValues profile g').dedup.length := by omega
      simp [h1, hr]
  · by_cases h1 : 2 ≤ (graphemeValues profile g').length
    · by_cases h2 : (graphemeValues profile g').dedup.length = 1
      · simp [h1, h2, isConflictFor, hg]
      · simp [h1, h2, isConflictFor, hg]
    · simp [h1, hg]

/-- Summing a per-key count of the shape `1` iff the key is `g` and a fixed
condition holds, over a duplicate-free key list. -/
theorem countP_flatMap_single (P : Finding → Bool) (blocks : List Char → List Finding)
    (g : List Char) (cond : Prop) [Decidable cond]
    (hblock : ∀ g', (blocks g').countP P = if g' = g ∧ cond then 1 else 0) :
    ∀ ks : List (List Char), ks.Nodup →
      (ks.flatMap blocks).countP P = if g ∈ ks ∧ cond then 1 else 0 := by
  intro ks
  induction ks with
  | nil => intro _; simp
  | cons k t ih =>
    intro hnd
    obtain ⟨hkt, hndt⟩ := List.nodup_cons.mp hnd
    rw [List.flatMap_cons, List.countP_append, hblock k, ih hndt]
    by_cases hg : k = g
    · subst hg
      by_cases hc : cond
      · simp [hc, hkt]
      · simp [hc]
    · by_cases hc : cond <;> by_cases hm : g ∈ t <;>
        simp [hg, hc, hm, Ne.symm hg]

/-- Membership in the dict-key iteration order. -/
theorem mem_firstKeys (g : List Char) :
    ∀ profile : List (List Char × String),
      g ∈ firstKeys profile ↔ ∃ e ∈ profile, e.1 = g := by
  intro profile
  induction profile with
  | nil => simp [firstKeys]
  | cons e rest ih =>
    simp only [firstKeys, List.mem_cons, List.mem_filter]
    constructor
    · rintro (rfl | ⟨hmem, _⟩)
      · exact ⟨e, Or.inl rfl, rfl⟩
      · obtain ⟨e', he', rfl⟩ := ih.mp hmem
        exact ⟨e', Or.inr he', rfl⟩
    · rintro ⟨e', he', rfl⟩
      rcases he' with rfl | he'
      · exact Or.inl rfl
      · by_cases hq : e'.1 = e.1
        · exact Or.inl hq
        · refine Or.inr ⟨ih.mpr ⟨e', he', rfl⟩, ?_⟩
          simp [hq]

/-- Dict keys are iterated without repetition. -/
theorem firstKeys_nodup :
    ∀ profile : List (List Char × String), (firstKeys profile).Nodup := by
  intro profile
  induction profile with
  | nil => simp [firstKeys]
  | cons e rest ih =>
    rw [firstKeys]
    refine List.nodup_cons.mpr ⟨?_, ih.filter _⟩
    intro hmem
    simp [List.mem_filter] at hmem

/-- A grapheme with at least one mapping value occurs among the iterated
keys. -/
theorem mem_firstKeys_of_values (profile : List (List Char × String)) (g : List Char)
    (h : 1 ≤ (graphemeValues profile g).length) : g ∈ firstKeys profile := by
  rw [mem_firstKeys]
  have hne : (profile.filter fun e => e.1 == g) ≠ [] := by
    intro hq
    rw [graphemeValues, hq] at h
    simp at h
  obtain ⟨e, he⟩ := List.exists_mem_of_ne_nil _ hne
  have hm := List.mem_filter.mp he
  exact ⟨e, hm.1, by simpa using hm.2⟩

/-- Claim C7 as amended: per grapheme, the checker produces exactly one
duplicate-entry finding when the grapheme maps at least twice and *all* its
transcriptions are identical, and exactly one conflicting-mapping finding
when it maps to two or more *different* transcriptions (so a grapheme with a
repeated value *and* a different value gets only the conflict finding); the
checker is total and never halts processing. -/
theorem c7_amended (isUnknown : String → Bool)
    (profile : List (List Char × String)) (g : List Char) :
    (check_consistency isUnknown profile).countP (isDuplicateFor g)
        = (if 2 ≤ (graphemeValues profile g).length
              ∧ (graphemeValues profile g).dedup.length = 1 then 1 else 0)
  ∧ (check_consistency isUnknown profile).countP (isConflictFor g)
        = (if 2 ≤ (graphemeValues profile g).dedup.length then 1 else 0) := by
  have hdn : (graphemeValues profile g).dedup.length
      ≤ (graphemeValues profile g).length :=
    (List.dedup_sublist _).length_le
  constructor
  · rw [check_consistency,
      countP_flatMap_single _ _ g _ (countP_dup_block isUnknown profile g)
        (firstKeys profile) (firstKeys_nodup profile)]
    by_cases hC : 2 ≤ (graphemeValues profile g).length
        ∧ (graphemeValues profile g).dedup.length = 1
    · have hm : g ∈ firstKeys profile :=
        mem_firstKeys_of_values profile g (by omega)
      simp [hC, hm]
    · simp [hC]
  · rw [check_consistency,
      countP_flatMap_single _ _ g _ (countP_conflict_block isUnknown profile g)
        (firstKeys profile) (firstKeys_nodup profile)]
    by_cases hC : 2 ≤ (graphemeValues profile g).dedup.length
    · have hm : g ∈ firstKeys profile :=
        mem_firstKeys_of_values profile g (by omega)
      simp [hC, hm]
    · simp [hC]

/-- Witness for C7 (amended) at a concrete input: for the profile
`x → a, x → a, x → b` the checker emits exactly one conflict finding for
`x`. -/
theorem c7_amended_witness :
    (check_consistency (fun _ => false) profXAAB).countP (isConflictFor ("x".toList)) = 1 :=
  ((c7_amended (fun _ => false) profXAAB ("x".toList)).2).trans (by decide)

/-- Claim C7 — counterexample: in the profile `x → a, x → a, x → b`, the
grapheme `x` maps more than once to the same transcription `a`, yet the
checker emits *zero* duplicate-entry findings for it (the duplicate warning
is only issued when all values coincide; here the conflict branch wins). -/
theorem c7_counterexample :
    (graphemeValues profXAAB ("x".toList)).count "a" = 2
  ∧ (check_consistency (fun _ => false) profXAAB).countP
        (isDuplicateFor ("x".toList)) = 0 :=
  ⟨by decide, by decide⟩

end Prftool
